import Mathlib

/-!
Verification of the raw-data import engine of `cli/data.py` (class
`DataImporter` and its helpers).

The Python module drives its matching and classification through the
standard-library `re` engine, so the shallow embedding starts from a small
regular-expression abstract syntax (`Regex`) covering exactly the constructs
appearing in the module's patterns, together with an executable matcher
(`matchEnds`) that returns all possible match ends at a position in the
backtracking priority order used by CPython (leftmost start, left alternative
first, greedy quantifiers longest-first).  On top of the matcher we embed
`re.search`, the `finditer`/`lastgroup` recipe used by `match_path`, and
`re.sub`.  The importer's data flow (`import_data`, `import_files`,
`match_path`, `format_fastq_name`, `get_regex_pattern`, `get_summary`) is then
translated function by function; external collaborators (the registry API,
`os` filesystem mutations, `system_settings`) are represented by oracle
parameters and by an explicit trace of mutation operations (`Op`).
-/

namespace Isabl

/-- Regular-expression abstract syntax, covering the constructs used by the
patterns of `cli/data.py`: literal characters, character classes, `.+`
(`dotplus`), a one-or-more quantifier over a class (`plusCls`, needed for the
unescaped-metacharacter analysis), concatenation, alternation, greedy `?`
(`opt`), and the `^`/`$` anchors. -/
inductive Regex where
  | eps : Regex
  | chr (c : Char) : Regex
  | cls (cs : List Char) : Regex
  | dotplus : Regex
  | plusCls (cs : List Char) : Regex
  | seq (a b : Regex) : Regex
  | alt (a b : Regex) : Regex
  | opt (a : Regex) : Regex
  | bos : Regex
  | eos : Regex
  deriving DecidableEq, Repr

/-- Concatenation of `f x` over `l` (a local `flatMap`, kept here so that its
unfolding lemmas are under our control). -/
def flat : List α → (α → List β) → List β
  | [], _ => []
  | x :: xs, f => f x ++ flat xs f

/-- All positions at which a match of `r` starting at position `p` of `full`
can end, in CPython backtracking priority order: the head of the list is the
end position the `re` engine actually commits to.  `dotplus` consumes one or
more characters other than a newline, longest first (greedy `.+`); `plusCls`
likewise for a character class; `opt` tries to match first (greedy `?`);
`alt` tries the left branch first. -/
def matchEnds (full : List Char) : Regex → Nat → List Nat
  | .eps, p => [p]
  | .chr c, p => if full[p]? = some c then [p + 1] else []
  | .cls cs, p =>
    match full[p]? with
    | some d => if cs.contains d then [p + 1] else []
    | none => []
  | .dotplus, p =>
    let n := ((full.drop p).takeWhile (fun c => c ≠ '\n')).length
    (List.range n).reverse.map (fun k => p + k + 1)
  | .plusCls cs, p =>
    let n := ((full.drop p).takeWhile (fun c => cs.contains c)).length
    (List.range n).reverse.map (fun k => p + k + 1)
  | .seq a b, p => flat (matchEnds full a p) (matchEnds full b)
  | .alt a b, p => matchEnds full a p ++ matchEnds full b p
  | .opt a, p => matchEnds full a p ++ [p]
  | .bos, p => if p = 0 then [p] else []
  | .eos, p => if p = full.length then [p] else []

/-- Leftmost starting position at which `r` matches inside `full`
(the start of the match `re.search`/`next(finditer(...))` returns). -/
def searchPos (full : List Char) (r : Regex) : Option Nat :=
  (List.range (full.length + 1)).find? (fun p => !(matchEnds full r p).isEmpty)

/-- Embedding of `re.search(r, full) is not None`. -/
def reSearch (r : Regex) (full : List Char) : Bool :=
  (searchPos full r).isSome

/-- Name of the first alternative (in pattern order) matching at position `p`:
CPython alternation commits to the leftmost alternative that matches. -/
def firstGroupAt (full : List Char) (pats : List (String × Regex)) (p : Nat) :
    Option String :=
  (pats.find? (fun g => !(matchEnds full g.2 p).isEmpty)).map (fun g => g.1)

/-- Embedding of `next(pattern.finditer(path)).lastgroup` for the combined
pattern `re.compile('|'.join(patterns))` built by `import_data`: the first
match is at the leftmost matching position, and its `lastgroup` is the name of
the alternative that matched there (each alternative is one named group whose
closing parenthesis is outermost, so it is the last group to close). -/
def finditerFirstGroup (full : List Char) (pats : List (String × Regex)) :
    Option String :=
  match (List.range (full.length + 1)).find?
      (fun p => (firstGroupAt full pats p).isSome) with
  | some p => firstGroupAt full pats p
  | none => none

/-- One step list of `re.sub`: at each position of the fixed input `full`, if
the pattern matches, the committed (priority-first) match is replaced and
scanning resumes after it; otherwise one character is copied.  CPython resumes
one character further when a match is empty; none of the module's substitution
patterns can match the empty string, but the case is kept for fidelity.
`fuel` bounds the recursion; every step advances the position, so
`full.length + 1` fuel is always enough. -/
def reSubAux (full : List Char) (r : Regex) (repl : List Char) :
    Nat → Nat → List Char
  | 0, p => full.drop p
  | fuel + 1, p =>
    match full[p]? with
    | none => []
    | some c =>
      match matchEnds full r p with
      | [] => c :: reSubAux full r repl fuel (p + 1)
      | e :: _ =>
        if p < e then repl ++ reSubAux full r repl fuel e
        else repl ++ c :: reSubAux full r repl fuel (p + 1)

/-- Embedding of `re.sub(r, repl, s)` (replacement strings of the module
contain no backreferences). -/
def reSub (r : Regex) (repl : List Char) (s : List Char) : List Char :=
  reSubAux s r repl (s.length + 1) 0

/-- Literal string pattern: `lits [c1, ..., cn]` matches exactly that
character sequence. -/
def lits : List Char → Regex
  | [] => .eps
  | c :: cs => .seq (.chr c) (lits cs)

/-- The literal sequence `l` occurs verbatim at position `p` of `full`
(characterizes `lits` matches). -/
def litAt (full : List Char) : List Char → Nat → Bool
  | [], _ => true
  | c :: cs, p => (full[p]? == some c) && litAt full cs (p + 1)

/-- The separator class `[-_.]` used by `get_regex_pattern`. -/
def seps : List Char := ['-', '_', '.']

/-- The separator class `[_.]` used by `FASTQ_REGEX` and the substitution
patterns of `format_fastq_name`. -/
def usep : List Char := ['_', '.']

/-- `DataImporter.BAM_REGEX = r'\.bam$'`. -/
def BAM_REGEX : Regex := .seq (lits ['.', 'b', 'a', 'm']) .eos

/-- `DataImporter.CRAM_REGEX = r'\.cram$'`. -/
def CRAM_REGEX : Regex := .seq (lits ['.', 'c', 'r', 'a', 'm']) .eos

/-- The common tail `f(ast)?q(\.gz)?$` of `FASTQ_REGEX` and of the bare
sequence-read-extension pattern `r'\.f(ast)?q(\.gz)?$'` of `match_path`. -/
def fastqTail : Regex :=
  .seq (.chr 'f') (.seq (.opt (lits ['a', 's', 't']))
    (.seq (.chr 'q') (.seq (.opt (lits ['.', 'g', 'z'])) .eos)))

/-- `DataImporter.FASTQ_REGEX.format(i)` for a read index digit `i`, i.e.
`(([_.]R{i}[_.].+)|([_.]R{i}\.)|(_{i}\.))f(ast)?q(\.gz)?$`. -/
def FASTQ_REGEX (i : Char) : Regex :=
  .seq
    (.alt (.seq (.cls usep) (.seq (.chr 'R') (.seq (.chr i)
            (.seq (.cls usep) .dotplus))))
      (.alt (.seq (.cls usep) (.seq (.chr 'R') (.seq (.chr i) (.chr '.'))))
        (.seq (.chr '_') (.seq (.chr i) (.chr '.')))))
    fastqTail

/-- The pattern `r'\.f(ast)?q(\.gz)?$'` tested by `match_path` to decide
whether a file that failed read-index detection still names a sequence-read
file (in which case a hard error is raised). -/
def plainFastqEnd : Regex := .seq (.chr '.') fastqTail

/-- `r'[_.]R{i}([_.])?\.f(ast)?q'` (`letter_index_fastq` in
`format_fastq_name`). -/
def letter_index_fastq (i : Char) : Regex :=
  .seq (.cls usep) (.seq (.chr 'R') (.seq (.chr i) (.seq (.opt (.cls usep))
    (.seq (.chr '.') (.seq (.chr 'f') (.seq (.opt (lits ['a', 's', 't']))
      (.chr 'q')))))))

/-- `r'[_.]{i}([_.])?\.f(ast)?q'` (`number_index_fastq` in
`format_fastq_name`). -/
def number_index_fastq (i : Char) : Regex :=
  .seq (.cls usep) (.seq (.chr i) (.seq (.opt (.cls usep))
    (.seq (.chr '.') (.seq (.chr 'f') (.seq (.opt (lits ['a', 's', 't']))
      (.chr 'q'))))))

/-- `r'[_.]R{i}[_.]'` (`letter_index_any_location` in `format_fastq_name`). -/
def letter_index_any_location (i : Char) : Regex :=
  .seq (.cls usep) (.seq (.chr 'R') (.seq (.chr i) (.cls usep)))

/-- `r'[_.]f(ast)?q'`, the final substitution pattern of
`format_fastq_name`. -/
def fastqSubPat : Regex :=
  .seq (.cls usep) (.seq (.chr 'f') (.seq (.opt (lits ['a', 's', 't']))
    (.chr 'q')))

/-- `get_regex_pattern`, at the level the source works at: the produced
pattern *string*.  `re.sub(r'[-_.]', r'[-_.]', identifier)` rewrites every
separator character of the identifier to the class `[-_.]` (reusing the
engine's `reSub` with the class pattern), and the result is interpolated
unescaped into `r'(?P<{group_name}>(^|[-_.])?{pattern}[-_.])'`. -/
def get_regex_pattern (group_name identifier : String) : String :=
  let pattern : List Char := reSub (.cls seps) "[-_.]".data identifier.data
  "(?P<" ++ group_name ++ ">(^|[-_.])?" ++ String.mk pattern ++ "[-_.])"

/-- The single-character pattern the `re` engine assigns to one identifier
character after `get_regex_pattern`'s rewriting: a separator becomes the class
`[-_.]`, any other (non-metacharacter) character matches literally. -/
def charRegex (c : Char) : Regex :=
  if seps.contains c then .cls seps else .chr c

/-- The identifier body of the compiled pattern: the identifier's characters
in sequence, separators generalized to the class `[-_.]`. -/
def idCore : List Char → Regex
  | [] => .eps
  | c :: cs => .seq (charRegex c) (idCore cs)

/-- The abstract syntax that the `re` engine assigns to the string produced by
`get_regex_pattern` — `(^|[-_.])? <rewritten identifier> [-_.]` inside one
named group — for identifiers containing no regex metacharacters other than
`-`, `_`, `.` (for such identifiers the interpolation is literal). -/
def idRegex (id : List Char) : Regex :=
  .seq (.opt (.alt .bos (.cls seps))) (.seq (idCore id) (.cls seps))

/-- A value returned by the caller-supplied `key` function: the CLI's key
builder may produce an `int`, a `str`, or `None` (`types = (int, str,
type(None))`). -/
inductive Ident where
  | null : Ident
  | str (s : String) : Ident
  | int (n : Int) : Ident
  deriving DecidableEq, Repr

/-- Python truthiness of an identifier value (`if identifier`): `None`, the
empty string and `0` are falsy. -/
def Ident.truthy : Ident → Bool
  | .null => false
  | .str s => !s.isEmpty
  | .int n => n != 0

/-- `str(identifier)` as interpolated into f-string messages. -/
def Ident.render : Ident → String
  | .null => "None"
  | .str s => s
  | .int n => toString n

/-- Whether the identifier is an integer (relevant because `re.sub` inside
`get_regex_pattern` raises `TypeError` on a non-string argument). -/
def Ident.isInt : Ident → Bool
  | .int _ => true
  | _ => false

/-- Per-file extra annotations (`files_data` values: `PL`, `LB`, ...). -/
abbrev FileData := List (String × String)

/-- One element of a workflow's `sequencing_data` list, as built by
`import_files`. -/
structure SeqData where
  file_url : String
  file_type : String
  file_data : FileData
  hash_value : Nat
  hash_method : String
  deriving DecidableEq, Repr

/-- A workflow instance as returned by the registry API, restricted to the
fields `import_data`/`import_files` read or write. -/
structure Workflow where
  pk : Nat
  system_id : String
  sequencing_data : List SeqData
  storage_url : Option String
  deriving DecidableEq, Repr

/-- One value of the `cache` dictionary of `import_data` (`wf` stands for the
source's `instance` key, which is a reserved word here). -/
structure CacheEntry where
  using_id : String
  wf : Workflow
  files : List String
  deriving DecidableEq, Repr

/-- A filesystem/registry mutation performed by the importer: storage
allocation (`update_storage_url`), `os.makedirs`, `os.rename`,
`utils.force_symlink`, and `api.patch_instance` on a workflow. -/
inductive Op where
  | alloc (endpoint : String) (pk : Nat) : Op
  | makedirs (path : String) : Op
  | move (src dst : String) : Op
  | link (src dst : String) : Op
  | patch (pk : Nat) (storage_url : String) (storage_usage : Nat)
      (sd : List SeqData) : Op
  deriving DecidableEq, Repr

/-- An exception escaping the importer: `click.UsageError`, a failed
`assert`, `TypeError` from `re.sub`, or an `OSError` during relocation. -/
inductive ImpError where
  | usage (msg : String) : ImpError
  | assertion (msg : String) : ImpError
  | typeErr (msg : String) : ImpError
  | ioErr (src dst : String) : ImpError
  deriving DecidableEq, Repr

/-- An apostrophe, kept out of string literals. -/
def apo : String := String.mk [Char.ofNat 39]

/-- The duplicate-identifier message of `import_data`:
`f"Can't use same identifier for {new} and {old}: {identifier}"`. -/
def dupMsg (sysNew sysOld rendered : String) : String :=
  "Can" ++ apo ++ "t use same identifier for " ++ sysNew ++ " and " ++
    sysOld ++ ": " ++ rendered

/-- The mixed-data-formats message of `import_files`. -/
def multiFormatMsg (sysid : String) (sds : List SeqData) : String :=
  "We should have catched this earlier, but multiple formats are not " ++
    "supported, these were found for " ++ sysid ++ ": " ++
    String.intercalate "," (sds.map (fun s => s.file_url))

/-- First key match in an association list (embeds Python `dict` lookup for
the dictionaries of the module, whose keys are inserted one at a time). -/
def assocFind [DecidableEq α] (k : α) : List (α × β) → Option β
  | [] => none
  | p :: ps => if p.1 = k then some p.2 else assocFind k ps

/-- `os.path.basename` on the slash-separated paths the importer builds. -/
def basenameL (p : List Char) : List Char :=
  p.foldl (fun acc c => if c = '/' then [] else acc ++ [c]) []

/-- `os.path.join(root, name)` for the scanner's paths (no trailing slashes
occur in the walks we model). -/
def pathJoin (root name : String) : String := root ++ "/" ++ name

/-- Modelled from the spec: `system_settings.FASTQ_READ_PREFIX` — the
settings module is not among the sources; the spec's scenario (canonical
names `s1_1.fastq` / `s1_2.fastq`) fixes the read prefix to the empty
string. -/
def fastqReadPrefixSetting : String := ""

/-- The read index (as the digit `'1'` or `'2'`) determined for a filename:
the first `i` in `[1, 2]` for which `re.search(FASTQ_REGEX.format(i), ...)`
succeeds.  Both `match_path`'s validity loop and `format_fastq_name`'s suffix
loop iterate exactly this way. -/
def readIndexOf (path : List Char) : Option Char :=
  ['1', '2'].find? (fun i => reSearch (FASTQ_REGEX i) path)

/-- `DataImporter.format_fastq_name`: pick the read index, then apply the four
`re.sub` rewrites.  `none` corresponds to the failing `assert suffix`
(`AssertionError`). -/
def format_fastq_name (file_name : List Char) : Option (List Char) :=
  match readIndexOf file_name with
  | none => none
  | some i =>
    let suffix := '_' :: fastqReadPrefixSetting.data ++ [i] ++ ".fastq".data
    let f1 := reSub (letter_index_fastq i) ".fastq".data file_name
    let f2 := reSub (number_index_fastq i) ".fastq".data f1
    let f3 := reSub (letter_index_any_location i) ['_'] f2
    some (reSub fastqSubPat suffix f3)

/-- `DataImporter.match_path`: the first match's `lastgroup` names the
matched entity; `.bam`/`.cram`/read-indexed-fastq shapes are valid; a file
ending in a bare sequence-read extension without a determinable read index
raises `click.UsageError`; any other matched file fails the `valid` assertion,
which is caught, discarding the file (`.ok none`).  The source's `valid`
local (the same three-way disjunction) is inlined at its two use sites. -/
def match_path (path : String) (pats : List (String × Regex)) :
    Except ImpError (Option String) :=
  match finditerFirstGroup path.data pats with
  | none => .ok none
  | some index =>
    if reSearch plainFastqEnd path.data &&
        !(reSearch BAM_REGEX path.data || reSearch CRAM_REGEX path.data
          || (readIndexOf path.data).isSome) then
      .error (.usage ("cant determine if read 1 or read 2 from: " ++ path))
    else if reSearch BAM_REGEX path.data || reSearch CRAM_REGEX path.data
        || (readIndexOf path.data).isSome then .ok (some index)
    else .ok none

/-- The per-file planning loop of `import_files` (`for src in files: ...`):
computes destination names and the `sequencing_data` descriptors without
touching the filesystem.  The `none` result of `format_fastq_name` is the
propagated `AssertionError`.  `getsize` is the `os.path.getsize` oracle. -/
def planFiles (sysid : String) (files_data : List (String × FileData))
    (data_dir : String) (getsize : String → Nat) :
    List String → Except ImpError (List (String × String) × List SeqData)
  | [] => .ok ([], [])
  | src :: rest =>
    let file_name := basenameL src.data
    let file_data := (assocFind (String.mk file_name) files_data).getD []
    let typed : String × Option (List Char) :=
      if reSearch BAM_REGEX src.data then ("BAM", some file_name)
      else if reSearch CRAM_REGEX src.data then ("CRAM", some file_name)
      else ("FASTQ", format_fastq_name file_name)
    match typed.2 with
    | none =>
      .error (.assertion ("Couldn" ++ apo ++ "t determine read 1 or read 2 " ++
        "from " ++ String.mk file_name))
    | some fn =>
      let fn := if sysid.data.isPrefixOf fn then fn
        else sysid.data ++ "__".data ++ fn
      let dst := data_dir ++ "/" ++ String.mk fn
      match planFiles sysid files_data data_dir getsize rest with
      | .error e => .error e
      | .ok (plan, sds) =>
        .ok ((src, dst) :: plan,
          ⟨dst, typed.1, file_data, getsize src, "os.path.getsize"⟩ :: sds)

/-- The relocation performed for one planned file: `self.symlink` or
`self.move`. -/
def relocOp (symlink : Bool) (src dst : String) : Op :=
  if symlink then Op.link src dst else Op.move src dst

/-- The relocation loop of `import_files` (`for src, dst in src_dst: ...`).
`relocFails` is the I/O-failure oracle: when it fires, the `OSError` aborts
the loop and the error carries the relocations already performed. -/
def relocate (symlink : Bool) (relocFails : String → String → Bool) :
    List (String × String) → Except (List Op × String × String) (List Op)
  | [] => .ok []
  | (s, d) :: rest =>
    if relocFails s d then .error ([], s, d)
    else
      match relocate symlink relocFails rest with
      | .ok ops => .ok (relocOp symlink s d :: ops)
      | .error (ops, fs, fd) => .error (relocOp symlink s d :: ops, fs, fd)

/-- The storage-allocation step of `import_files`
(`if not instance['storage_url']: instance = update_storage_url(...)`):
returns the workflow with its storage set, plus the allocation operation if
one took place. -/
def allocStorage (wf : Workflow) (alloc : Nat → String) : Workflow × List Op :=
  match wf.storage_url with
  | none => ({wf with storage_url := some (alloc wf.pk)},
             [Op.alloc "workflows" wf.pk])
  | some _ => (wf, [])

/-- The entity's storage directory after allocation. -/
def storageOf (wf : Workflow) (alloc : Nat → String) : String :=
  (allocStorage wf alloc).1.storage_url.getD ""

/-- `data_dir = join(instance['storage_url'], 'data')`. -/
def dataDirOf (wf : Workflow) (alloc : Nat → String) : String :=
  storageOf wf alloc ++ "/data"

/-- The mutations `import_files` performs before touching any file: the
storage allocation (if needed) and `os.makedirs(data_dir)`. -/
def preOps (wf : Workflow) (alloc : Nat → String) : List Op :=
  (allocStorage wf alloc).2 ++ [Op.makedirs (dataDirOf wf alloc)]

/-- `DataImporter.import_files`: allocate storage if missing, create the data
directory, plan destinations, reject mixed data formats, relocate, then patch
the workflow's registry record.  The second component is the trace of
filesystem/registry mutations, in order; on an exception it contains the
mutations performed before the raise. -/
def import_files (wf : Workflow) (files : List String)
    (files_data : List (String × FileData)) (symlink : Bool)
    (alloc : Nat → String) (getsize treeSize : String → Nat)
    (relocFails : String → String → Bool) :
    Except ImpError Workflow × List Op :=
  match planFiles (allocStorage wf alloc).1.system_id files_data
      (dataDirOf wf alloc) getsize files with
  | .error e => (.error e, preOps wf alloc)
  | .ok (plan, sds) =>
    if 1 < (sds.map (fun s => s.file_type)).dedup.length then
      (.error (.usage (multiFormatMsg (allocStorage wf alloc).1.system_id
        sds)), preOps wf alloc)
    else
      match relocate symlink relocFails plan with
      | .error (ops, fs, fd) => (.error (.ioErr fs fd), preOps wf alloc ++ ops)
      | .ok ops =>
        (.ok {(allocStorage wf alloc).1 with sequencing_data := sds},
         preOps wf alloc ++ ops ++
           [Op.patch (allocStorage wf alloc).1.pk (storageOf wf alloc)
             (treeSize (storageOf wf alloc)) sds])

/-- The first loop of `import_data` (over `api.get_instances(...)`): builds
the `cache`, `identifiers` and `patterns` accumulators, raising
`click.UsageError` on a duplicated identifier.  Only truthy identifiers of
workflows without `sequencing_data` are registered; a non-string identifier
reaching `get_regex_pattern` raises `TypeError` inside `re.sub`. -/
def buildCache (key : Workflow → Ident) :
    List Workflow → List (String × CacheEntry) → List (Ident × String) →
      List (String × Regex) →
    Except ImpError (List (String × CacheEntry) × List (String × Regex))
  | [], cache, _, pats => .ok (cache, pats)
  | w :: rest, cache, ids, pats =>
    match assocFind (key w) ids with
    | some other =>
      .error (.usage (dupMsg w.system_id other (key w).render))
    | none =>
      if (key w).truthy && w.sequencing_data.isEmpty then
        match key w with
        | .str s =>
          buildCache key rest
            (cache ++ [("primary_key_" ++ toString w.pk,
              ⟨w.system_id ++ " (using " ++ (key w).render ++ ")", w, []⟩)])
            (ids ++ [(key w, w.system_id)])
            (pats ++ [("primary_key_" ++ toString w.pk, idRegex s.data)])
        | _ => .error (.typeErr "expected string or bytes-like object")
      else
        buildCache key rest
          (cache ++ [("primary_key_" ++ toString w.pk,
            ⟨w.system_id ++ " (Skipped, identifier is NULL)", w, []⟩)])
          ids pats

/-- Append a matched path to the bucket of the named entity
(`cache[index]['files'].append(path)`; the group names are exactly the cache
keys, so the `defaultdict` never creates a fresh entry here). -/
def cacheAdd (cache : List (String × CacheEntry)) (idx : String)
    (path : String) : List (String × CacheEntry) :=
  cache.map (fun p =>
    if p.1 = idx then (p.1, {p.2 with files := p.2.files ++ [path]}) else p)

/-- The inner scanner loop over the files of one walked directory entry. -/
def scanRoot (pats : List (String × Regex)) (root : String) :
    List String → List (String × CacheEntry) →
    Except ImpError (List (String × CacheEntry))
  | [], cache => .ok cache
  | f :: rest, cache =>
    match match_path (pathJoin root f) pats with
    | .error e => .error e
    | .ok none => scanRoot pats root rest cache
    | .ok (some idx) => scanRoot pats root rest (cacheAdd cache idx (pathJoin root f))

/-- One directory's `os.walk` loop: every `(root, files)` entry whose root
lies inside the managed storage directory is skipped. -/
def scanWalk (pats : List (String × Regex)) (base : String) :
    List (String × List String) → List (String × CacheEntry) →
    Except ImpError (List (String × CacheEntry))
  | [], cache => .ok cache
  | (root, files) :: rest, cache =>
    if root.startsWith base then scanWalk pats base rest cache
    else
      match scanRoot pats root files cache with
      | .error e => .error e
      | .ok cache2 => scanWalk pats base rest cache2

/-- The outer loop over the caller-supplied directories; each directory is
represented by its `os.walk` output, a list of `(root, files)` entries. -/
def scanDirs (pats : List (String × Regex)) (base : String) :
    List (List (String × List String)) → List (String × CacheEntry) →
    Except ImpError (List (String × CacheEntry))
  | [], cache => .ok cache
  | walk :: rest, cache =>
    match scanWalk pats base walk cache with
    | .error e => .error e
    | .ok cache2 => scanDirs pats base rest cache2

/-- Stable insertion of a cache entry into a list sorted by `pk`. -/
def insertByPk (e : CacheEntry) : List CacheEntry → List CacheEntry
  | [] => [e]
  | x :: xs => if e.wf.pk ≤ x.wf.pk then e :: x :: xs else x :: insertByPk e xs

/-- `sorted(cache.values(), key=lambda x: x['instance']['pk'])` (stable, like
Python's `sorted`). -/
def sortByPk : List CacheEntry → List CacheEntry
  | [] => []
  | x :: xs => insertByPk x (sortByPk xs)

/-- The processing loop of `import_data`: `import_files` runs only when
`commit` is set and the entity has matched files; otherwise a matched entity
is reported without any mutation. -/
def processEntities (commit symlink : Bool)
    (files_data : List (String × FileData)) (alloc : Nat → String)
    (getsize treeSize : String → Nat)
    (relocFails : String → String → Bool) :
    List CacheEntry → Except ImpError (List Workflow) × List Op
  | [] => (.ok [], [])
  | e :: rest =>
    if commit && !e.files.isEmpty then
      match import_files e.wf e.files files_data symlink alloc getsize
          treeSize relocFails with
      | (.error err, ops) => (.error err, ops)
      | (.ok w, ops) =>
        match processEntities commit symlink files_data alloc getsize treeSize
            relocFails rest with
        | (.error err, ops2) => (.error err, ops ++ ops2)
        | (.ok ws, ops2) => (.ok (w :: ws), ops ++ ops2)
    else if !e.files.isEmpty then
      match processEntities commit symlink files_data alloc getsize treeSize
          relocFails rest with
      | (.error err, ops2) => (.error err, ops2)
      | (.ok ws, ops2) => (.ok (e.wf :: ws), ops2)
    else
      processEntities commit symlink files_data alloc getsize treeSize
        relocFails rest

/-- `click.style(s, fg=...)`: wrap in the ANSI color escape and reset
(cyan = 36, green = 32, red = 31). -/
def click_style (s : String) (colorCode : Nat) : String :=
  "\x1b[" ++ toString colorCode ++ "m" ++ s ++ "\x1b[0m"

/-- `'\n'.join(['\n'] + msgs)`. -/
def joinNl (l : List String) : String :=
  String.intercalate "\n" ("\n" :: l)

/-- The classification loop of `get_summary`, in cache order: entities with
pre-existing `sequencing_data` are skipped; else entities with matched files
are found; else missing.  Returns the three message lists and the matched
file total. -/
def summarize : List CacheEntry →
    List String × List String × List String × Nat
  | [] => ([], [], [], 0)
  | e :: rest =>
    let r := summarize rest
    if !e.wf.sequencing_data.isEmpty then
      (click_style ("skipped " ++ e.using_id ++ "\t") 36 :: r.1, r.2.1,
       r.2.2.1, r.2.2.2)
    else if !e.files.isEmpty then
      (r.1, r.2.1,
       (click_style ("found " ++ e.using_id ++ "\n\t\t") 32 ++
         String.intercalate "\n\t\t" e.files) :: r.2.2.1,
       e.files.length + r.2.2.2)
    else
      (r.1,
       (click_style ("missing " ++ e.using_id ++ "\t") 31 ++
         "no files matched") :: r.2.1,
       r.2.2.1, r.2.2.2)

/-- `DataImporter.get_summary`. -/
def get_summary (cache : List (String × CacheEntry)) : String :=
  let r := summarize (cache.map (fun p => p.2))
  let skipped := r.1
  let missing := r.2.1
  let matched := r.2.2.1
  let total_matched := r.2.2.2
  (if skipped.isEmpty then "" else joinNl skipped) ++
  (if missing.isEmpty then "" else joinNl missing) ++
  (if matched.isEmpty then "" else joinNl matched) ++
  "\n\ntotal samples: " ++ toString cache.length ++
  "\nsamples skipped: " ++ toString skipped.length ++
  "\nsamples missing: " ++ toString missing.length ++
  "\nsamples matched: " ++ toString matched.length ++
  "\ntotal files matched: " ++ toString total_matched

/-- `DataImporter.import_data`.  Inputs stand for the external collaborators:
`wfs` is the result of the registry query, `walks` the `os.walk` output of
each caller directory, `base` the managed storage root
(`BASE_STORAGE_DIRECTORY`), `alloc`/`getsize`/`treeSize`/`relocFails` the
storage, size and I/O oracles.  The result pairs the returned value (or the
escaping exception) with the trace of mutations. -/
def import_data (wfs : List Workflow)
    (walks : List (List (String × List String)))
    (symlink commit : Bool) (key : Workflow → Ident)
    (files_data : List (String × FileData)) (base : String)
    (alloc : Nat → String) (getsize treeSize : String → Nat)
    (relocFails : String → String → Bool) :
    Except ImpError (List Workflow × String) × List Op :=
  match buildCache key wfs [] [] [] with
  | .error e => (.error e, [])
  | .ok (cache, pats) =>
    if pats.isEmpty then (.ok ([], get_summary cache), [])
    else
      match scanDirs pats base walks cache with
      | .error e => (.error e, [])
      | .ok cache2 =>
        match processEntities commit symlink files_data alloc getsize treeSize
            relocFails (sortByPk (cache2.map (fun p => p.2))) with
        | (.error e, ops) => (.error e, ops)
        | (.ok ws, ops) => (.ok (ws, get_summary cache2), ops)

/-!  Specification-side predicates used to state the claims (they are compared
against the embedded code, never used inside it). -/

/-- One identifier character matched against one path character, separators
being interchangeable. -/
def charOk (c d : Char) : Bool :=
  if seps.contains c then seps.contains d else d = c

/-- The identifier occurs (separators interchangeable) at position `p`. -/
def idMatchesAt (full : List Char) : List Char → Nat → Bool
  | [], _ => true
  | c :: cs, p =>
    (match full[p]? with
     | some d => charOk c d
     | none => false) && idMatchesAt full cs (p + 1)

/-- The character at position `p` is one of the three separators. -/
def sepAt (full : List Char) (p : Nat) : Bool :=
  match full[p]? with
  | some d => seps.contains d
  | none => false

/-- The identifier occurs at `p` and is followed by a separator. -/
def tokenAt (full id : List Char) (p : Nat) : Bool :=
  idMatchesAt full id p && sepAt full (p + id.length)

/-- The claim's notion of a delimiter-bounded token: additionally preceded by
start-of-string or a separator. -/
def boundedTokenAt (full id : List Char) (p : Nat) : Bool :=
  (decide (p = 0) || sepAt full (p - 1)) && tokenAt full id p

/-- Some delimiter-bounded occurrence of the identifier exists in the path. -/
def existsBoundedToken (full id : List Char) : Bool :=
  (List.range full.length).any (fun p => boundedTokenAt full id p)

/-- A character the claims call metacharacter-free: alphanumeric or one of
the three separators. -/
def plainIdChar (c : Char) : Bool := c.isAlphanum || seps.contains c

/-- Boolean list-prefix test. -/
def prefB : List Char → List Char → Bool
  | [], _ => true
  | _ :: _, [] => false
  | a :: as, b :: bs => a = b && prefB as bs

/-- Boolean substring test (`needle in hay`). -/
def infixB (needle hay : List Char) : Bool :=
  (List.range (hay.length + 1)).any (fun p => prefB needle (hay.drop p))

/-- The pattern the `re` engine compiles from `get_regex_pattern("g", "s+1")`
(`'(?P<g>(^|[-_.])?s+1[-_.])'`): the unescaped `+` acts as a one-or-more
quantifier on `s` instead of a literal character. -/
def sPlusRegex : Regex :=
  .seq (.opt (.alt .bos (.cls seps)))
    (.seq (.plusCls ['s']) (.seq (.chr '1') (.cls seps)))

/-- Registration eligibility in `import_data`'s first loop: truthy identifier
and no pre-existing sequencing data. -/
def eligibleWf (key : Workflow → Ident) (w : Workflow) : Bool :=
  (key w).truthy && w.sequencing_data.isEmpty

/-- The exception carried by a result, if any (used to state equalities on
results without a `DecidableEq` instance for `Except`). -/
def errOf : Except ImpError α → Option ImpError
  | .error e => some e
  | .ok _ => none

/-- Whether an operation is the `api.patch_instance` call on a workflow. -/
def Op.isPatch : Op → Bool
  | .patch _ _ _ _ => true
  | _ => false

/-!  Concrete scenario data shared by several claims. -/

/-- Entity `A` of the spec scenario: identifier `s1`, no pre-existing data. -/
def wfS1 : Workflow := ⟨1, "s1", [], some "/st/w1"⟩

/-- Entity `B` of the spec scenario: identifier `s2`, no pre-existing data. -/
def wfS2 : Workflow := ⟨2, "s2", [], some "/st/w2"⟩

/-- The default key function `lambda x: x['system_id']`. -/
def sysKey : Workflow → Ident := fun w => .str w.system_id

/-- Walk of the directory `in` holding the spec-scenario files. -/
def c9walks : List (List (String × List String)) :=
  [[("in", ["s1_R1_x.fastq", "s1_R2_x.fastq", "s2.bam"])]]

/-- Dry run of the spec scenario. -/
def c9dry : Except ImpError (List Workflow × String) × List Op :=
  import_data [wfS1, wfS2] c9walks false false sysKey [] "/isabl"
    (fun pk => "/alloc/" ++ toString pk) (fun _ => 7) (fun _ => 9)
    (fun _ _ => false)

/-- Commit run of the spec scenario. -/
def c9commit : Except ImpError (List Workflow × String) × List Op :=
  import_data [wfS1, wfS2] c9walks false true sysKey [] "/isabl"
    (fun pk => "/alloc/" ++ toString pk) (fun _ => 7) (fun _ => 9)
    (fun _ _ => false)

/-- The dry-run summary text of the spec scenario. -/
def c9summary : String :=
  match c9dry.1 with
  | .ok r => r.2
  | .error _ => ""

/-- Walk for the mixed-formats scenario: a clean bam for `s1` (lower primary
key) and a fastq/bam mixture for `s2`. -/
def c4walks : List (List (String × List String)) :=
  [[("in", ["s1.bam", "s2_1.fastq", "s2.bam"])]]

/-- Commit run of the mixed-formats scenario. -/
def c4run : Except ImpError (List Workflow × String) × List Op :=
  import_data [wfS1, wfS2] c4walks false true sysKey [] "/isabl"
    (fun pk => "/alloc/" ++ toString pk) (fun _ => 7) (fun _ => 9)
    (fun _ _ => false)

/-- A workflow that already holds sequencing data. -/
def c1wfA : Workflow :=
  ⟨1, "W1", [⟨"u", "BAM", [], 1, "os.path.getsize"⟩], some "/st/1"⟩

/-- A data-free workflow distinct from `c1wfA`. -/
def c1wfB : Workflow := ⟨2, "W2", [], none⟩

/-- A key assigning the same non-null identifier to every workflow. -/
def c1key : Workflow → Ident := fun _ => .str "dup"

/-- Run with a duplicated identifier whose first bearer already has data. -/
def c1run : Except ImpError (List Workflow × String) × List Op :=
  import_data [c1wfA, c1wfB] [] false false c1key [] "/isabl"
    (fun pk => "/alloc/" ++ toString pk) (fun _ => 0) (fun _ => 0)
    (fun _ _ => false)

/-!  Supporting lemmas. -/

theorem summarize_skipped_length (es : List CacheEntry) :
    (summarize es).1.length =
      (es.filter (fun e => !e.wf.sequencing_data.isEmpty)).length := by
  induction es with
  | nil => rfl
  | cons e rest ih =>
    cases h1 : e.wf.sequencing_data.isEmpty with
    | true => cases h2 : e.files.isEmpty <;> simp [summarize, h1, h2, ih]
    | false => simp [summarize, h1, ih]

theorem summarize_missing_length (es : List CacheEntry) :
    (summarize es).2.1.length =
      (es.filter
        (fun e => e.wf.sequencing_data.isEmpty && e.files.isEmpty)).length := by
  induction es with
  | nil => rfl
  | cons e rest ih =>
    cases h1 : e.wf.sequencing_data.isEmpty with
    | true => cases h2 : e.files.isEmpty <;> simp [summarize, h1, h2, ih]
    | false => simp [summarize, h1, ih]

theorem summarize_matched_length (es : List CacheEntry) :
    (summarize es).2.2.1.length =
      (es.filter
        (fun e => e.wf.sequencing_data.isEmpty && !e.files.isEmpty)).length := by
  induction es with
  | nil => rfl
  | cons e rest ih =>
    cases h1 : e.wf.sequencing_data.isEmpty with
    | true => cases h2 : e.files.isEmpty <;> simp [summarize, h1, h2, ih]
    | false => simp [summarize, h1, ih]

/-- The trace of `processEntities` is empty when `commit` is not set. -/
theorem processEntities_dry (symlink : Bool)
    (files_data : List (String × FileData)) (alloc : Nat → String)
    (getsize treeSize : String → Nat) (relocFails : String → String → Bool)
    (l : List CacheEntry) :
    (processEntities false symlink files_data alloc getsize treeSize
      relocFails l).2 = [] := by
  induction l with
  | nil => rfl
  | cons e rest ih =>
    rcases h : processEntities false symlink files_data alloc getsize treeSize
      relocFails rest with ⟨r, ops⟩
    cases r with
    | error err => simp_all [processEntities]
    | ok ws =>
      simp_all [processEntities]
      cases h2 : e.files.isEmpty <;> simp_all

/-- Sum of the three bucket sizes of `summarize`. -/
theorem summarize_total (es : List CacheEntry) :
    (summarize es).1.length + (summarize es).2.1.length +
      (summarize es).2.2.1.length = es.length := by
  induction es with
  | nil => rfl
  | cons e rest ih =>
    cases h1 : e.wf.sequencing_data.isEmpty with
    | true =>
      cases h2 : e.files.isEmpty <;> simp [summarize, h1, h2] <;> omega
    | false =>
      simp [summarize, h1]
      omega

theorem flat_nil (f : α → List β) : flat [] f = [] := rfl

theorem flat_cons (x : α) (xs : List α) (f : α → List β) :
    flat (x :: xs) f = f x ++ flat xs f := rfl

theorem flat_ne {l : List α} {f : α → List β} :
    flat l f ≠ [] ↔ ∃ x ∈ l, f x ≠ [] := by
  induction l with
  | nil => simp [flat]
  | cons x xs ih =>
    rw [flat_cons]
    constructor
    · intro h
      rcases (not_and_or.mp (mt List.append_eq_nil.mpr h)) with h1 | h1
      · exact ⟨x, by simp, h1⟩
      · rcases ih.mp h1 with ⟨y, hy, hne⟩
        exact ⟨y, by simp [hy], hne⟩
    · rintro ⟨y, hy, hne⟩
      rcases List.mem_cons.mp hy with rfl | hy2
      · intro hc
        exact hne (List.append_eq_nil.mp hc).1
      · intro hc
        exact (ih.mpr ⟨y, hy2, hne⟩) (List.append_eq_nil.mp hc).2

theorem matchEnds_lits (full : List Char) (l : List Char) :
    ∀ p, matchEnds full (lits l) p =
      if litAt full l p then [p + l.length] else [] := by
  induction l with
  | nil =>
    intro p
    simp [lits, matchEnds, litAt]
  | cons c cs ih =>
    intro p
    show flat (matchEnds full (.chr c) p) (matchEnds full (lits cs)) = _
    by_cases h : full[p]? = some c
    · rw [show matchEnds full (.chr c) p = [p + 1] from by
        simp only [matchEnds, if_pos h]]
      rw [flat_cons, flat_nil, List.append_nil, ih]
      by_cases h2 : litAt full cs (p + 1)
      · rw [if_pos h2, if_pos (show litAt full (c :: cs) p = true from by
          simp [litAt, h, h2])]
        simp [Nat.add_assoc, Nat.add_comm 1 cs.length]
      · rw [if_neg h2, if_neg (show ¬ litAt full (c :: cs) p = true from by
          simp [litAt, h, h2])]
    · rw [show matchEnds full (.chr c) p = [] from by
        simp only [matchEnds, if_neg h]]
      rw [flat_nil, if_neg (show ¬ litAt full (c :: cs) p = true from by
        simp [litAt, h])]

theorem lits_ne (full : List Char) (l : List Char) (p : Nat) :
    matchEnds full (lits l) p ≠ [] ↔ litAt full l p = true := by
  rw [matchEnds_lits]
  by_cases h : litAt full l p <;> simp [h]

theorem eos_ne (full : List Char) (p : Nat) :
    matchEnds full .eos p ≠ [] ↔ p = full.length := by
  by_cases h : p = full.length <;> simp [matchEnds, h]

theorem seq_ne (full : List Char) (a b : Regex) (p : Nat) :
    matchEnds full (.seq a b) p ≠ [] ↔
      ∃ e ∈ matchEnds full a p, matchEnds full b e ≠ [] := by
  show flat _ _ ≠ [] ↔ _
  exact flat_ne

theorem seq_chr_ne (full : List Char) (c : Char) (r : Regex) (p : Nat) :
    matchEnds full (.seq (.chr c) r) p ≠ [] ↔
      full[p]? = some c ∧ matchEnds full r (p + 1) ≠ [] := by
  rw [seq_ne]
  by_cases h : full[p]? = some c
  · rw [show matchEnds full (.chr c) p = [p + 1] from by
      simp only [matchEnds, if_pos h]]
    simp [h]
  · rw [show matchEnds full (.chr c) p = [] from by
      simp only [matchEnds, if_neg h]]
    simp [h]

theorem seq_opt_ne (full : List Char) (r1 r2 : Regex) (p : Nat) :
    matchEnds full (.seq (.opt r1) r2) p ≠ [] ↔
      (∃ e ∈ matchEnds full r1 p, matchEnds full r2 e ≠ []) ∨
        matchEnds full r2 p ≠ [] := by
  rw [seq_ne]
  show (∃ e ∈ matchEnds full r1 p ++ [p], _) ↔ _
  constructor
  · rintro ⟨e, he, hne⟩
    rcases List.mem_append.mp he with h | h
    · exact Or.inl ⟨e, h, hne⟩
    · rw [List.mem_singleton.mp h] at hne
      exact Or.inr hne
  · rintro (⟨e, he, hne⟩ | hne)
    · exact ⟨e, List.mem_append.mpr (Or.inl he), hne⟩
    · exact ⟨p, List.mem_append.mpr (Or.inr (by simp)), hne⟩

theorem seq_lits_eos_ne (full : List Char) (l : List Char) (p : Nat) :
    matchEnds full (.seq (lits l) .eos) p ≠ [] ↔
      litAt full l p = true ∧ p + l.length = full.length := by
  rw [seq_ne]
  constructor
  · rintro ⟨e, he, hne⟩
    rw [matchEnds_lits] at he
    by_cases h : litAt full l p
    · rw [if_pos h] at he
      rw [List.mem_singleton.mp he] at hne
      exact ⟨h, (eos_ne full _).mp hne⟩
    · rw [if_neg h] at he
      exact absurd he (List.not_mem_nil e)
  · rintro ⟨h, hlen⟩
    refine ⟨p + l.length, ?_, ?_⟩
    · rw [matchEnds_lits, if_pos h]
      simp
    · rw [eos_ne]
      exact hlen

theorem reSearch_iff (r : Regex) (full : List Char) :
    reSearch r full = true ↔
      ∃ p, p ≤ full.length ∧ matchEnds full r p ≠ [] := by
  unfold reSearch searchPos
  rw [List.find?_isSome]
  constructor
  · rintro ⟨p, hp, hpred⟩
    refine ⟨p, ?_, ?_⟩
    · have := List.mem_range.mp hp
      omega
    · simpa using hpred
  · rintro ⟨p, hp, hne⟩
    refine ⟨p, List.mem_range.mpr (by omega), ?_⟩
    simpa using hne

/-- A path matched by `BAM_REGEX` ends in `m`. -/
theorem bam_last (full : List Char) (h : reSearch BAM_REGEX full = true) :
    full[full.length - 1]? = some 'm' := by
  rcases (reSearch_iff _ _).mp h with ⟨p, _, hne⟩
  rcases (seq_lits_eos_ne full _ p).mp hne with ⟨hlit, hlen⟩
  simp only [litAt, Bool.and_eq_true, beq_iff_eq] at hlit
  have hm : full[p + 3]? = some 'm' := by
    have := hlit.2.2.2.1
    simpa [Nat.add_assoc] using this
  have hix : full.length - 1 = p + 3 := by
    simp at hlen
    omega
  rw [hix]
  exact hm

/-- A path matched by `CRAM_REGEX` ends in `m`. -/
theorem cram_last (full : List Char) (h : reSearch CRAM_REGEX full = true) :
    full[full.length - 1]? = some 'm' := by
  rcases (reSearch_iff _ _).mp h with ⟨p, _, hne⟩
  rcases (seq_lits_eos_ne full _ p).mp hne with ⟨hlit, hlen⟩
  simp only [litAt, Bool.and_eq_true, beq_iff_eq] at hlit
  have hm : full[p + 4]? = some 'm' := by
    have := hlit.2.2.2.2.1
    simpa [Nat.add_assoc] using this
  have hix : full.length - 1 = p + 4 := by
    simp at hlen
    omega
  rw [hix]
  exact hm

/-- Any successful match of the sequence-read tail `f(ast)?q(\.gz)?$` puts a
`q` (uncompressed) or `z` (gzipped) as the last character of the string. -/
theorem fastqTail_last (full : List Char) (p : Nat)
    (h : matchEnds full fastqTail p ≠ []) :
    full[full.length - 1]? = some 'q' ∨ full[full.length - 1]? = some 'z' := by
  unfold fastqTail at h
  rcases (seq_chr_ne full 'f' _ p).mp h with ⟨_, h1⟩
  rcases (seq_opt_ne full _ _ (p + 1)).mp h1 with ⟨e, he, h2⟩ | h2
  · -- the "ast" branch: e = p + 4
    rw [matchEnds_lits] at he
    by_cases hast : litAt full ['a', 's', 't'] (p + 1)
    · rw [if_pos hast] at he
      have he4 : e = p + 1 + 3 := List.mem_singleton.mp he
      subst he4
      rcases (seq_chr_ne full 'q' _ _).mp h2 with ⟨hq, h3⟩
      rcases (seq_opt_ne full _ _ _).mp h3 with ⟨e2, he2, h4⟩ | h4
      · rw [matchEnds_lits] at he2
        by_cases hgz : litAt full ['.', 'g', 'z'] (p + 1 + 3 + 1)
        · rw [if_pos hgz] at he2
          rw [List.mem_singleton.mp he2] at h4
          have hlen := (eos_ne full _).mp h4
          simp only [litAt, Bool.and_eq_true, beq_iff_eq] at hgz
          refine Or.inr ?_
          have hz : full[p + 7]? = some 'z' := by
            have := hgz.2.2.1
            simpa [Nat.add_assoc] using this
          have hix : full.length - 1 = p + 7 := by
            simp at hlen
            omega
          rw [hix]
          exact hz
        · rw [if_neg hgz] at he2
          exact absurd he2 (List.not_mem_nil e2)
      · have hlen := (eos_ne full _).mp h4
        refine Or.inl ?_
        have hq4 : full[p + 4]? = some 'q' := by
          simpa [Nat.add_assoc] using hq
        have hix : full.length - 1 = p + 4 := by omega
        rw [hix]
        exact hq4
    · rw [if_neg hast] at he
      exact absurd he (List.not_mem_nil e)
  · -- no "ast": continue from p + 1
    rcases (seq_chr_ne full 'q' _ (p + 1)).mp h2 with ⟨hq, h3⟩
    rcases (seq_opt_ne full _ _ (p + 2)).mp h3 with ⟨e2, he2, h4⟩ | h4
    · rw [matchEnds_lits] at he2
      by_cases hgz : litAt full ['.', 'g', 'z'] (p + 2)
      · rw [if_pos hgz] at he2
        rw [List.mem_singleton.mp he2] at h4
        have hlen := (eos_ne full _).mp h4
        simp only [litAt, Bool.and_eq_true, beq_iff_eq] at hgz
        refine Or.inr ?_
        have hz : full[p + 4]? = some 'z' := by
          have := hgz.2.2.1
          simpa [Nat.add_assoc] using this
        have hix : full.length - 1 = p + 4 := by
          simp at hlen
          omega
        rw [hix]
        exact hz
      · rw [if_neg hgz] at he2
        exact absurd he2 (List.not_mem_nil e2)
    · have hlen := (eos_ne full _).mp h4
      refine Or.inl ?_
      have hix : full.length - 1 = p + 1 := by omega
      rw [hix]
      exact hq

/-- A path with a bare sequence-read extension ends in `q` or `z`. -/
theorem plainFastq_last (full : List Char)
    (h : reSearch plainFastqEnd full = true) :
    full[full.length - 1]? = some 'q' ∨ full[full.length - 1]? = some 'z' := by
  rcases (reSearch_iff _ _).mp h with ⟨p, _, hne⟩
  rcases (seq_chr_ne full '.' _ p).mp hne with ⟨_, h1⟩
  exact fastqTail_last full (p + 1) h1

/-- A path cannot both end in a sequence-read extension and in `.bam` or
`.cram`. -/
theorem fastq_not_bam (full : List Char)
    (h : reSearch plainFastqEnd full = true) :
    reSearch BAM_REGEX full = false ∧ reSearch CRAM_REGEX full = false := by
  constructor
  · cases hx : reSearch BAM_REGEX full
    · rfl
    · rcases plainFastq_last full h with hq | hq <;>
        rw [bam_last full hx] at hq <;> simp at hq
  · cases hx : reSearch CRAM_REGEX full
    · rfl
    · rcases plainFastq_last full h with hq | hq <;>
        rw [cram_last full hx] at hq <;> simp at hq

/-- Behavior of the relocation loop when the `k`-th relocation fails and the
earlier ones succeed: the error carries exactly the `k` relocations already
performed and the failing pair. -/
theorem relocate_fail (symlink : Bool) (rf : String → String → Bool) :
    ∀ (plan : List (String × String)) (k : Nat) (hk : k < plan.length),
      rf (plan.get ⟨k, hk⟩).1 (plan.get ⟨k, hk⟩).2 = true →
      (∀ j (hj : j < k), rf (plan.get ⟨j, Nat.lt_trans hj hk⟩).1
        (plan.get ⟨j, Nat.lt_trans hj hk⟩).2 = false) →
      relocate symlink rf plan =
        .error ((plan.take k).map (fun p => relocOp symlink p.1 p.2),
          (plan.get ⟨k, hk⟩).1, (plan.get ⟨k, hk⟩).2) := by
  intro plan
  induction plan with
  | nil =>
    intro k hk
    exact absurd hk (by simp)
  | cons pd rest ih =>
    intro k hk hfail hpre
    cases k with
    | zero =>
      have hf : rf pd.1 pd.2 = true := hfail
      simp [relocate, hf]
    | succ k2 =>
      have h0 : rf pd.1 pd.2 = false := by
        have := hpre 0 (Nat.succ_pos k2)
        simpa using this
      have hk2 : k2 < rest.length := by
        have := hk
        simp at this
        omega
      have hfail2 : rf (rest.get ⟨k2, hk2⟩).1 (rest.get ⟨k2, hk2⟩).2 = true := by
        simpa using hfail
      have hpre2 : ∀ j (hj : j < k2), rf (rest.get ⟨j, Nat.lt_trans hj hk2⟩).1
          (rest.get ⟨j, Nat.lt_trans hj hk2⟩).2 = false := by
        intro j hj
        have := hpre (j + 1) (by omega)
        simpa using this
      rw [show relocate symlink rf (pd :: rest) =
          (if rf pd.1 pd.2 then .error ([], pd.1, pd.2)
           else match relocate symlink rf rest with
             | .ok ops => .ok (relocOp symlink pd.1 pd.2 :: ops)
             | .error (ops, fs, fd) =>
               .error (relocOp symlink pd.1 pd.2 :: ops, fs, fd)) from rfl]
      rw [ih k2 hk2 hfail2 hpre2]
      simp [h0]

/-- No operation in the preparation trace is a registry patch. -/
theorem preOps_no_patch (wf : Workflow) (alloc : Nat → String) :
    ∀ op ∈ preOps wf alloc, op.isPatch = false := by
  intro op hop
  unfold preOps at hop
  rcases List.mem_append.mp hop with h | h
  · unfold allocStorage at h
    cases hs : wf.storage_url with
    | none =>
      rw [hs] at h
      simp at h
      simp [h, Op.isPatch]
    | some u =>
      rw [hs] at h
      simp at h
  · simp at h
    simp [h, Op.isPatch]

/-!  Theorems. -/

set_option maxRecDepth 100000

/-- C1 (counterexample): `c1key` returns the same non-null identifier `"dup"`
for the two distinct entities `c1wfA` and `c1wfB`, yet `import_data` succeeds
without any duplicate-identifier error, because the first bearer of the
identifier already holds sequencing data and is therefore never registered in
the `identifiers` dictionary. -/
theorem c1_import_dup_not_raised :
    c1wfA ≠ c1wfB ∧ c1key c1wfA = c1key c1wfB ∧ c1key c1wfA ≠ .null ∧
    c1run.1.isOk = true := by
  decide

/-- C2 (counterexample): for the identifier `s1` and the path `xs1_a`, the
identifier occurs nowhere as a delimiter-bounded token (its only occurrence is
preceded by `x`), yet the compiled pattern matches the path: the
start-or-separator prefix of `get_regex_pattern`'s pattern is optional. -/
theorem c2_substring_match :
    reSearch (idRegex "s1".data) "xs1_a".data = true ∧
    existsBoundedToken "xs1_a".data "s1".data = false := by
  decide

/-- C4 (code bug, evaluation at the failing input): committing the directory
`in` containing `s1.bam` (clean, entity `s1`, pk 1) and `s2_1.fastq`/`s2.bam`
(mixed formats, entity `s2`, pk 2) raises the multiple-data-formats
`click.UsageError` naming `s2` and the offending destinations, but only after
`s1.bam` has already been relocated and `s1`'s registry record patched — the
check does not run before relocation for the whole invocation. -/
theorem c4_relocation_precedes_mixed_error :
    errOf c4run.1 = some (.usage (multiFormatMsg "s2"
      [⟨"/st/w2/data/s2_1.fastq", "FASTQ", [], 7, "os.path.getsize"⟩,
       ⟨"/st/w2/data/s2.bam", "BAM", [], 7, "os.path.getsize"⟩])) ∧
    Op.move "in/s1.bam" "/st/w1/data/s1.bam" ∈ c4run.2 ∧
    Op.patch 1 "/st/w1" 9
      [⟨"/st/w1/data/s1.bam", "BAM", [], 7, "os.path.getsize"⟩] ∈ c4run.2 := by
  decide

/-- C6 (code bug, evaluation at the failing input): `format_fastq_name` maps
the valid read-indexed name `x_R1_R1_y.fq` to the canonical `x_R1_y_1.fastq`,
but a second application maps that canonical name to `x_y_1.fastq`: the
leftmost non-overlapping `re.sub` scan drops only one of the two overlapping
`_R1_` tokens per pass, so canonicalization is not idempotent. -/
theorem c6_not_idempotent :
    format_fastq_name "x_R1_R1_y.fq".data = some "x_R1_y_1.fastq".data ∧
    format_fastq_name "x_R1_y_1.fastq".data = some "x_y_1.fastq".data ∧
    "x_y_1.fastq" ≠ "x_R1_y_1.fastq" := by
  decide

/-- C9 (counterexample): in the spec scenario the commit succeeds, but the
fastq pair is *not* renamed to `s1_1.fastq`/`s1_2.fastq` as the claim states:
no relocation with those destinations occurs (the free-text segment `x` is
preserved by the canonicalizer). -/
theorem c9_canonical_names_differ :
    c9commit.1.isOk = true ∧
    Op.move "in/s1_R1_x.fastq" "/st/w1/data/s1_1.fastq" ∉ c9commit.2 ∧
    Op.move "in/s1_R2_x.fastq" "/st/w1/data/s1_2.fastq" ∉ c9commit.2 := by
  decide

/-- C9 (amended): for entities `s1`/`s2` and a directory with exactly
`s1_R1_x.fastq`, `s1_R2_x.fastq` and `s2.bam`, the dry run mutates nothing and
its summary reports `samples matched: 2` and `total files matched: 3`, and the
commit relocates the fastq pair to the canonical names `s1_x_1.fastq` /
`s1_x_2.fastq` (free text preserved, canonical read suffix appended) and the
bam under `s2.bam`, a name starting with `s2`'s system identifier. -/
theorem c9_scenario :
    c9dry.2 = [] ∧
    infixB "samples matched: 2".data c9summary.data = true ∧
    infixB "total files matched: 3".data c9summary.data = true ∧
    c9commit.1.isOk = true ∧
    Op.move "in/s1_R1_x.fastq" "/st/w1/data/s1_x_1.fastq" ∈ c9commit.2 ∧
    Op.move "in/s1_R2_x.fastq" "/st/w1/data/s1_x_2.fastq" ∈ c9commit.2 ∧
    Op.move "in/s2.bam" "/st/w2/data/s2.bam" ∈ c9commit.2 := by
  decide

/-- C10: `get_regex_pattern` interpolates the identifier without regex
escaping (only separators are rewritten), so for the identifier `s+1` the
produced pattern string keeps the bare `+`; the compiled pattern then matches
the path `xss1_`, which does not contain `s+1` literally. -/
theorem c10_unescaped_metachar :
    get_regex_pattern "g" "s+1" = "(?P<g>(^|[-_.])?s+1[-_.])" ∧
    reSearch sPlusRegex "xss1_".data = true ∧
    infixB "s+1".data "xss1_".data = false := by
  decide

/-- C5: the per-entity outcomes of `get_summary` partition the cached entity
set exactly — an entity is skipped iff it has pre-existing sequencing data
(regardless of matched files), matched iff it has none and at least one
matched file, missing otherwise — and the reported `total samples`
(`len(cache)`) equals skipped + missing + matched. -/
theorem c5_summary_partition (cache : List (String × CacheEntry)) :
    (summarize (cache.map (fun p => p.2))).1.length +
      (summarize (cache.map (fun p => p.2))).2.1.length +
      (summarize (cache.map (fun p => p.2))).2.2.1.length = cache.length ∧
    (summarize (cache.map (fun p => p.2))).1.length =
      ((cache.map (fun p => p.2)).filter
        (fun e => !e.wf.sequencing_data.isEmpty)).length ∧
    (summarize (cache.map (fun p => p.2))).2.2.1.length =
      ((cache.map (fun p => p.2)).filter
        (fun e => e.wf.sequencing_data.isEmpty && !e.files.isEmpty)).length ∧
    (summarize (cache.map (fun p => p.2))).2.1.length =
      ((cache.map (fun p => p.2)).filter
        (fun e => e.wf.sequencing_data.isEmpty && e.files.isEmpty)).length ∧
    (∀ e ∈ cache.map (fun p => p.2),
      ((!e.wf.sequencing_data.isEmpty) = true ∨
        (e.wf.sequencing_data.isEmpty && !e.files.isEmpty) = true ∨
        (e.wf.sequencing_data.isEmpty && e.files.isEmpty) = true) ∧
      ¬((!e.wf.sequencing_data.isEmpty) = true ∧
        (e.wf.sequencing_data.isEmpty && !e.files.isEmpty) = true) ∧
      ¬((!e.wf.sequencing_data.isEmpty) = true ∧
        (e.wf.sequencing_data.isEmpty && e.files.isEmpty) = true) ∧
      ¬((e.wf.sequencing_data.isEmpty && !e.files.isEmpty) = true ∧
        (e.wf.sequencing_data.isEmpty && e.files.isEmpty) = true)) := by
  refine ⟨?_, summarize_skipped_length _, summarize_matched_length _,
    summarize_missing_length _, ?_⟩
  · rw [summarize_total]
    exact cache.length_map _
  · intro e _
    cases h1 : e.wf.sequencing_data.isEmpty <;>
      cases h2 : e.files.isEmpty <;> simp [h1, h2]

/-- A one-entry cache used by the C5 witness. -/
def c5entry : CacheEntry := ⟨"u", wfS1, ["f"]⟩

/-- C5 witness. -/
theorem c5_summary_partition_witness :
    (summarize ([("k", c5entry)].map (fun p => p.2))).1.length +
      (summarize ([("k", c5entry)].map (fun p => p.2))).2.1.length +
      (summarize ([("k", c5entry)].map (fun p => p.2))).2.2.1.length = 1 ∧
    ((!c5entry.wf.sequencing_data.isEmpty) = true ∨
      (c5entry.wf.sequencing_data.isEmpty && !c5entry.files.isEmpty) = true ∨
      (c5entry.wf.sequencing_data.isEmpty && c5entry.files.isEmpty) = true) :=
  ⟨(c5_summary_partition [("k", c5entry)]).1,
    ((c5_summary_partition [("k", c5entry)]).2.2.2.2
      c5entry (by simp)).1⟩

/-- C7: with `commit` not set (the default dry run), `import_data` performs
no filesystem or registry mutation whatsoever — no move, link, storage
allocation or patch appears in the trace — and the commit engine
(`import_files`) is reached only for entities with matched files when
`commit` is set: an entity without matched files contributes nothing to
processing. -/
theorem c7_dry_run_frame :
    (∀ (wfs : List Workflow) (walks : List (List (String × List String)))
        (symlink : Bool) (key : Workflow → Ident)
        (files_data : List (String × FileData)) (base : String)
        (alloc : Nat → String) (getsize treeSize : String → Nat)
        (relocFails : String → String → Bool),
      (import_data wfs walks symlink false key files_data base alloc getsize
        treeSize relocFails).2 = []) ∧
    (∀ (commit symlink : Bool) (files_data : List (String × FileData))
        (alloc : Nat → String) (getsize treeSize : String → Nat)
        (relocFails : String → String → Bool) (e : CacheEntry)
        (rest : List CacheEntry), e.files = [] →
      processEntities commit symlink files_data alloc getsize treeSize
          relocFails (e :: rest) =
        processEntities commit symlink files_data alloc getsize treeSize
          relocFails rest) := by
  constructor
  · intro wfs walks symlink key fd base alloc gs ts rf
    unfold import_data
    rcases h1 : buildCache key wfs [] [] [] with e | ⟨cache, pats⟩
    · simp
    · cases h2 : pats.isEmpty with
      | true => simp [h2]
      | false =>
        simp only [h2]
        rcases h3 : scanDirs pats base walks cache with e | cache2
        · simp
        · rcases h4 : processEntities false symlink fd alloc gs ts rf
            (sortByPk (cache2.map (fun p => p.2))) with ⟨r, ops⟩
          have h5 := processEntities_dry symlink fd alloc gs ts rf
            (sortByPk (cache2.map (fun p => p.2)))
          rw [h4] at h5
          cases r <;> simp_all
  · intro commit symlink fd alloc gs ts rf e rest hfiles
    have h : e.files.isEmpty = true := by simp [hfiles]
    simp [processEntities, h]

/-- C7 witness. -/
theorem c7_dry_run_frame_witness :
    (import_data [wfS1, wfS2] c9walks false false sysKey [] "/isabl"
      (fun pk => "/alloc/" ++ toString pk) (fun _ => 7) (fun _ => 9)
      (fun _ _ => false)).2 = [] ∧
    processEntities true false [] (fun _ => "") (fun _ => 0) (fun _ => 0)
        (fun _ _ => false) [⟨"u", wfS1, []⟩] =
      processEntities true false [] (fun _ => "") (fun _ => 0) (fun _ => 0)
        (fun _ _ => false) [] :=
  ⟨c7_dry_run_frame.1 [wfS1, wfS2] c9walks false sysKey [] "/isabl"
      (fun pk => "/alloc/" ++ toString pk) (fun _ => 7) (fun _ => 9)
      (fun _ _ => false),
    c7_dry_run_frame.2 true false [] (fun _ => "") (fun _ => 0) (fun _ => 0)
      (fun _ _ => false) ⟨"u", wfS1, []⟩ [] rfl⟩

/-- C8: if relocating one of an entity's files raises an I/O error, the
entity's registry patch is never issued (no `Op.patch` appears in the trace),
the files relocated before the failure stay in place with no rollback (the
trace ends with exactly those relocations), and the error propagates as the
result of `import_files`. -/
theorem c8_io_error_no_patch (wf : Workflow) (files : List String)
    (files_data : List (String × FileData)) (symlink : Bool)
    (alloc : Nat → String) (getsize treeSize : String → Nat)
    (relocFails : String → String → Bool)
    (plan : List (String × String)) (sds : List SeqData) (k : Nat)
    (hk : k < plan.length)
    (hplan : planFiles (allocStorage wf alloc).1.system_id files_data
      (dataDirOf wf alloc) getsize files = .ok (plan, sds))
    (hmix : (sds.map (fun s => s.file_type)).dedup.length ≤ 1)
    (hfail : relocFails (plan.get ⟨k, hk⟩).1 (plan.get ⟨k, hk⟩).2 = true)
    (hpre : ∀ j (hj : j < k), relocFails (plan.get ⟨j, Nat.lt_trans hj hk⟩).1
      (plan.get ⟨j, Nat.lt_trans hj hk⟩).2 = false) :
    (import_files wf files files_data symlink alloc getsize treeSize
        relocFails).1 =
      .error (.ioErr (plan.get ⟨k, hk⟩).1 (plan.get ⟨k, hk⟩).2) ∧
    (import_files wf files files_data symlink alloc getsize treeSize
        relocFails).2 =
      preOps wf alloc ++
        (plan.take k).map (fun p => relocOp symlink p.1 p.2) ∧
    ∀ op ∈ (import_files wf files files_data symlink alloc getsize treeSize
        relocFails).2, op.isPatch = false := by
  have hrel := relocate_fail symlink relocFails plan k hk hfail hpre
  have hmain : import_files wf files files_data symlink alloc getsize treeSize
      relocFails =
      (.error (.ioErr (plan.get ⟨k, hk⟩).1 (plan.get ⟨k, hk⟩).2),
       preOps wf alloc ++
         (plan.take k).map (fun p => relocOp symlink p.1 p.2)) := by
    unfold import_files
    rw [hplan]
    have hm : ¬ (1 < (sds.map (fun s => s.file_type)).dedup.length) := by
      omega
    simp only [hrel, if_neg hm]
  refine ⟨by rw [hmain], by rw [hmain], ?_⟩
  rw [hmain]
  intro op hop
  rcases List.mem_append.mp hop with h | h
  · exact preOps_no_patch wf alloc op h
  · rcases List.mem_map.mp h with ⟨p, _, rfl⟩
    cases symlink <;> simp [relocOp, Op.isPatch]

/-- C8 witness. -/
theorem c8_io_error_no_patch_witness :
    (import_files wfS2 ["in/s2_a.bam", "in/s2_b.bam"] [] false
        (fun pk => "/alloc/" ++ toString pk) (fun _ => 7) (fun _ => 9)
        (fun s _ => s == "in/s2_b.bam")).1 =
      .error (.ioErr "in/s2_b.bam" "/st/w2/data/s2_b.bam") ∧
    (import_files wfS2 ["in/s2_a.bam", "in/s2_b.bam"] [] false
        (fun pk => "/alloc/" ++ toString pk) (fun _ => 7) (fun _ => 9)
        (fun s _ => s == "in/s2_b.bam")).2 =
      preOps wfS2 (fun pk => "/alloc/" ++ toString pk) ++
        ([("in/s2_a.bam", "/st/w2/data/s2_a.bam")].map
          (fun p => relocOp false p.1 p.2)) ∧
    ∀ op ∈ (import_files wfS2 ["in/s2_a.bam", "in/s2_b.bam"] [] false
        (fun pk => "/alloc/" ++ toString pk) (fun _ => 7) (fun _ => 9)
        (fun s _ => s == "in/s2_b.bam")).2, op.isPatch = false :=
  c8_io_error_no_patch wfS2 ["in/s2_a.bam", "in/s2_b.bam"] [] false
    (fun pk => "/alloc/" ++ toString pk) (fun _ => 7) (fun _ => 9)
    (fun s _ => s == "in/s2_b.bam")
    [("in/s2_a.bam", "/st/w2/data/s2_a.bam"),
     ("in/s2_b.bam", "/st/w2/data/s2_b.bam")]
    [⟨"/st/w2/data/s2_a.bam", "BAM", [], 7, "os.path.getsize"⟩,
     ⟨"/st/w2/data/s2_b.bam", "BAM", [], 7, "os.path.getsize"⟩]
    1 (by decide) rfl (by decide) (by decide)
    (by
      intro j hj
      have hj0 : j = 0 := by omega
      subst hj0
      rfl)

/-- The single-entity pattern list used by the C3 witness. -/
def c3pats : List (String × Regex) := [("primary_key_1", idRegex "sample".data)]

/-- C3: for a scanned path that matches some entity group and ends in a
sequence-read extension (`.fastq`/`.fq`, optionally `.gz`): if a read-index
token is present (`FASTQ_REGEX` matches for index 1 or 2 — letter-prefixed
`R1`/`R2` next to a separator, or bare numeric `_1.`/`_2.`), `match_path`
accepts the file for that entity; if no read index can be determined, it
raises the fatal `click.UsageError` "cant determine if read 1 or read 2",
which `import_data` does not catch, aborting the whole scan. -/
theorem c3_read_index_classification (path : String)
    (pats : List (String × Regex)) (g : String)
    (hmatch : finditerFirstGroup path.data pats = some g)
    (hext : reSearch plainFastqEnd path.data = true) :
    ((readIndexOf path.data).isSome = true →
      match_path path pats = .ok (some g)) ∧
    (readIndexOf path.data = none →
      match_path path pats =
        .error (.usage
          ("cant determine if read 1 or read 2 from: " ++ path))) := by
  have hbam := (fastq_not_bam path.data hext).1
  have hcram := (fastq_not_bam path.data hext).2
  constructor
  · intro hidx
    unfold match_path
    rw [hmatch]
    have hv : (reSearch BAM_REGEX path.data || reSearch CRAM_REGEX path.data
        || (readIndexOf path.data).isSome) = true := by
      rw [hidx]
      simp
    simp [hv, hext]
  · intro hidx
    unfold match_path
    rw [hmatch]
    have hv : (reSearch BAM_REGEX path.data || reSearch CRAM_REGEX path.data
        || (readIndexOf path.data).isSome) = false := by
      rw [hbam, hcram, hidx]
      simp
    simp [hv, hext]

/-- C3 witness: `in/sample_1.fastq` (bare numeric read index, no read-2
counterpart anywhere) is accepted as a match for its entity, while
`in/sample.fastq` (no read-index token) raises the ambiguity error. -/
theorem c3_read_index_classification_witness :
    match_path "in/sample_1.fastq" c3pats = .ok (some "primary_key_1") ∧
    match_path "in/sample.fastq" c3pats =
      .error (.usage ("cant determine if read 1 or read 2 from: " ++
        "in/sample.fastq")) :=
  ⟨(c3_read_index_classification "in/sample_1.fastq" c3pats "primary_key_1"
      (by decide) (by decide)).1 (by decide),
   (c3_read_index_classification "in/sample.fastq" c3pats "primary_key_1"
      (by decide) (by decide)).2 (by decide)⟩

/-- `idCore` matches exactly when the identifier (separators interchangeable)
occurs at `p`, ending at `p + id.length`. -/
theorem matchEnds_idCore (full id : List Char) :
    ∀ p, matchEnds full (idCore id) p =
      if idMatchesAt full id p then [p + id.length] else [] := by
  induction id with
  | nil =>
    intro p
    simp [idCore, matchEnds, idMatchesAt]
  | cons c cs ih =>
    intro p
    show flat (matchEnds full (charRegex c) p) (matchEnds full (idCore cs)) = _
    have hstep : matchEnds full (charRegex c) p =
        if (match full[p]? with
            | some d => charOk c d
            | none => false) then [p + 1] else [] := by
      unfold charRegex charOk
      by_cases hs : c ∈ seps
      · cases hd : full[p]? with
        | none => simp [matchEnds, hd, hs]
        | some d =>
          by_cases hsd : d ∈ seps <;> simp [matchEnds, hd, hs, hsd]
      · cases hd : full[p]? with
        | none => simp [matchEnds, hd, hs]
        | some d =>
          by_cases hdc : d = c <;> simp [matchEnds, hd, hs, hdc]
    rw [hstep]
    by_cases hc : (match full[p]? with
        | some d => charOk c d
        | none => false) = true
    · rw [if_pos hc, flat_cons, flat_nil, List.append_nil, ih]
      by_cases h2 : idMatchesAt full cs (p + 1)
      · rw [if_pos h2, if_pos (show idMatchesAt full (c :: cs) p = true from by
          simp only [idMatchesAt, Bool.and_eq_true]
          exact ⟨hc, h2⟩)]
        simp [Nat.add_assoc, Nat.add_comm 1 cs.length]
      · rw [if_neg h2, if_neg (show ¬ idMatchesAt full (c :: cs) p = true from by
          simp only [idMatchesAt, Bool.and_eq_true]
          rintro ⟨-, h⟩
          exact h2 h)]
    · rw [if_neg hc, flat_nil,
        if_neg (show ¬ idMatchesAt full (c :: cs) p = true from by
          simp only [idMatchesAt, Bool.and_eq_true]
          rintro ⟨h, -⟩
          exact hc h)]

/-- The identifier body followed by the mandatory trailing separator class
matches exactly at trailing-separator token occurrences. -/
theorem matchEnds_idToken (full id : List Char) (p : Nat) :
    matchEnds full (.seq (idCore id) (.cls seps)) p =
      if tokenAt full id p then [p + id.length + 1] else [] := by
  show flat (matchEnds full (idCore id) p) (matchEnds full (.cls seps)) = _
  rw [matchEnds_idCore]
  by_cases h : idMatchesAt full id p
  · rw [if_pos h, flat_cons, flat_nil, List.append_nil]
    by_cases hsep : sepAt full (p + id.length)
    · rw [if_pos (show tokenAt full id p = true from by
        simp [tokenAt, h, hsep])]
      unfold sepAt at hsep
      cases hd : full[p + id.length]? with
      | none =>
        rw [hd] at hsep
        simp at hsep
      | some d =>
        rw [hd] at hsep
        simp only [matchEnds, hd]
        simp at hsep
        simp [hsep]
    · rw [if_neg (show ¬ tokenAt full id p = true from by
        simp [tokenAt, h, hsep])]
      unfold sepAt at hsep
      cases hd : full[p + id.length]? with
      | none => simp only [matchEnds, hd]
      | some d =>
        rw [hd] at hsep
        simp only [matchEnds, hd]
        simp at hsep
        simp [hsep]
  · rw [if_neg h, flat_nil,
      if_neg (show ¬ tokenAt full id p = true from by simp [tokenAt, h])]

/-- Nonemptiness of the full compiled identifier pattern at one position: the
optional start-or-separator prefix adds nothing beyond a trailing-separator
token at `p`, or a separator at `p` followed by a token at `p + 1`. -/
theorem idRegex_ne (full id : List Char) (p : Nat) :
    matchEnds full (idRegex id) p ≠ [] ↔
      (tokenAt full id p = true ∨
        (sepAt full p = true ∧ tokenAt full id (p + 1) = true)) := by
  unfold idRegex
  rw [seq_opt_ne]
  have htok : ∀ q, matchEnds full (.seq (idCore id) (.cls seps)) q ≠ [] ↔
      tokenAt full id q = true := by
    intro q
    rw [matchEnds_idToken]
    by_cases h : tokenAt full id q <;> simp [h]
  constructor
  · rintro (⟨e, he, hne⟩ | hne)
    · have he2 : e ∈ (if p = 0 then [p] else []) ++
          (match full[p]? with
           | some d => if seps.contains d then [p + 1] else []
           | none => ([] : List Nat)) := he
      rcases List.mem_append.mp he2 with h | h
      · by_cases h0 : p = 0
        · rw [if_pos h0] at h
          rw [List.mem_singleton.mp h] at hne
          exact Or.inl ((htok p).mp hne)
        · rw [if_neg h0] at h
          exact absurd h (List.not_mem_nil e)
      · cases hd : full[p]? with
        | none =>
          rw [hd] at h
          simp at h
        | some d =>
          rw [hd] at h
          by_cases hsd : d ∈ seps
          · simp [hsd] at h
            rw [h] at hne
            refine Or.inr ⟨?_, (htok _).mp hne⟩
            unfold sepAt
            rw [hd]
            simp [hsd]
          · simp [hsd] at h
    · exact Or.inl ((htok p).mp hne)
  · rintro (h | ⟨hsep, htk⟩)
    · exact Or.inr ((htok p).mpr h)
    · refine Or.inl ⟨p + 1, ?_, (htok _).mpr htk⟩
      refine List.mem_append.mpr (Or.inr ?_)
      show p + 1 ∈ (match full[p]? with
        | some d => if seps.contains d then [p + 1] else []
        | none => ([] : List Nat))
      unfold sepAt at hsep
      cases hd : full[p]? with
      | none =>
        rw [hd] at hsep
        simp at hsep
      | some d =>
        rw [hd] at hsep
        simp at hsep
        simp [hsep]

/-- A trailing-separator token occurrence lies strictly inside the string. -/
theorem tokenAt_lt (full id : List Char) (p : Nat)
    (h : tokenAt full id p = true) : p < full.length := by
  by_contra hge
  have hnone : full[p + id.length]? = none := by
    apply List.getElem?_eq_none
    omega
  unfold tokenAt sepAt at h
  rw [hnone] at h
  simp at h

/-- The compiled identifier pattern matches the path exactly when the
identifier, separators interchangeable, occurs somewhere followed by a
separator — the preceding character is unconstrained. -/
theorem reSearch_idRegex (full id : List Char) :
    reSearch (idRegex id) full = true ↔
      ∃ p, p < full.length ∧ tokenAt full id p = true := by
  rw [reSearch_iff]
  constructor
  · rintro ⟨p, hp, hne⟩
    rcases (idRegex_ne full id p).mp hne with h | ⟨-, h⟩
    · exact ⟨p, tokenAt_lt full id p h, h⟩
    · exact ⟨p + 1, tokenAt_lt full id (p + 1) h, h⟩
  · rintro ⟨p, hlt, htk⟩
    exact ⟨p, Nat.le_of_lt hlt, (idRegex_ne full id p).mpr (Or.inl htk)⟩

/-- C2 (amended): for every identifier free of regex metacharacters other
than `-`, `_`, `.` (the hypothesis delimits the scope in which `idRegex` is
the faithful reading of `get_regex_pattern`'s output), the compiled pattern
matches a path *iff* the identifier — with the three separators
interchangeable — occurs somewhere in the path immediately followed by a
separator.  In particular delimiter-bounded tokens match, but the preceding
character is unconstrained (the start-or-separator prefix of the pattern is
optional), and occurrences lacking a trailing separator never match. -/
theorem c2_token_iff_trailing_sep (id path : String)
    (_hplain : ∀ c ∈ id.data, plainIdChar c = true) :
    reSearch (idRegex id.data) path.data = true ↔
      ∃ p, p < path.data.length ∧ tokenAt path.data id.data p = true :=
  reSearch_idRegex path.data id.data

/-- C2 witness: identifier `s-1` against path `a_s.1-b` — the separator in
the identifier is matched by a different separator in the path, and the
occurrence carries a trailing separator. -/
theorem c2_token_iff_trailing_sep_witness :
    (∀ c ∈ "s-1".data, plainIdChar c = true) ∧
    (reSearch (idRegex "s-1".data) "a_s.1-b".data = true ↔
      ∃ p, p < "a_s.1-b".data.length ∧
        tokenAt "a_s.1-b".data "s-1".data p = true) :=
  ⟨by decide, c2_token_iff_trailing_sep "s-1" "a_s.1-b" (by decide)⟩

theorem assocFind_eq_some [DecidableEq α] (k : α) (l : List (α × β)) (v : β)
    (h : assocFind k l = some v) : (k, v) ∈ l := by
  induction l with
  | nil => simp [assocFind] at h
  | cons p ps ih =>
    unfold assocFind at h
    by_cases hp : p.1 = k
    · rw [if_pos hp] at h
      injection h with h2
      have hkv : (k, v) = p := by
        rw [← hp, ← h2]
      rw [hkv]
      exact List.mem_cons_self p ps
    · rw [if_neg hp] at h
      exact List.mem_cons.mpr (Or.inr (ih h))

theorem assocFind_isSome_iff [DecidableEq α] (k : α) (l : List (α × β)) :
    (assocFind k l).isSome = true ↔ ∃ q ∈ l, q.1 = k := by
  induction l with
  | nil => simp [assocFind]
  | cons p ps ih =>
    unfold assocFind
    by_cases hp : p.1 = k
    · simp only [if_pos hp, Option.isSome_some, true_iff]
      exact ⟨p, List.mem_cons_self p ps, hp⟩
    · rw [if_neg hp, ih]
      constructor
      · rintro ⟨q, hq, hqk⟩
        exact ⟨q, List.mem_cons.mpr (Or.inr hq), hqk⟩
      · rintro ⟨q, hq, hqk⟩
        rcases List.mem_cons.mp hq with rfl | hq2
        · exact absurd hqk hp
        · exact ⟨q, hq2, hqk⟩

/-- If, while scanning the workflow list, some workflow's identifier is
already registered — in the accumulator, or by an earlier eligible workflow of
the scanned list — then `buildCache` raises the duplicate-identifier
`click.UsageError`, naming two entities that share a truthy identifier. -/
theorem buildCache_dup (key : Workflow → Ident) (allWs : List Workflow) :
    ∀ (ws : List Workflow) (cache : List (String × CacheEntry))
      (ids : List (Ident × String)) (pats : List (String × Regex)),
      (∀ w ∈ ws, w ∈ allWs) →
      (∀ q ∈ ids, ∃ b, b ∈ allWs ∧ key b = q.1 ∧ q.1.truthy = true ∧
        b.system_id = q.2) →
      (∀ w ∈ ws, (key w).isInt = false) →
      (∃ j, ∃ hj : j < ws.length,
        (assocFind (key (ws.get ⟨j, hj⟩)) ids).isSome = true ∨
        ∃ i, ∃ hi : i < j,
          eligibleWf key (ws.get ⟨i, Nat.lt_trans hi hj⟩) = true ∧
          key (ws.get ⟨i, Nat.lt_trans hi hj⟩) = key (ws.get ⟨j, hj⟩)) →
      ∃ a, a ∈ allWs ∧ ∃ b, b ∈ allWs ∧ key a = key b ∧
        (key a).truthy = true ∧
        buildCache key ws cache ids pats =
          .error (.usage (dupMsg a.system_id b.system_id (key a).render)) := by
  intro ws
  induction ws with
  | nil =>
    intro cache ids pats _ _ _ htrig
    obtain ⟨j, hj, -⟩ := htrig
    exact absurd hj (by simp)
  | cons w rest ih =>
    intro cache ids pats hsub hinv hint htrig
    rcases hfind : assocFind (key w) ids with _ | other
    · -- the head workflow raises no error; locate the trigger further down
      obtain ⟨j, hj, hcase⟩ := htrig
      cases j with
      | zero =>
        rcases hcase with hfound | ⟨i, hi, -⟩
        · rw [show (w :: rest).get ⟨0, hj⟩ = w from rfl, hfind] at hfound
          simp at hfound
        · exact absurd hi (Nat.not_lt_zero i)
      | succ j2 =>
        have hj2 : j2 < rest.length := by
          have := hj
          simp at this
          omega
        have hgetj : key ((w :: rest).get ⟨j2 + 1, hj⟩) =
            key (rest.get ⟨j2, hj2⟩) := rfl
        have hsub2 : ∀ x ∈ rest, x ∈ allWs := fun x hx =>
          hsub x (List.mem_cons.mpr (Or.inr hx))
        have hint2 : ∀ x ∈ rest, (key x).isInt = false := fun x hx =>
          hint x (List.mem_cons.mpr (Or.inr hx))
        by_cases helig : ((key w).truthy && w.sequencing_data.isEmpty) = true
        · -- head is eligible: it gets registered
          rcases hkw : key w with _ | s | n
          · rw [hkw] at helig
            simp [Ident.truthy] at helig
          · -- string identifier: recurse with the extended accumulators
            have htrig2 : ∃ j, ∃ hjr : j < rest.length,
                (assocFind (key (rest.get ⟨j, hjr⟩))
                  (ids ++ [(key w, w.system_id)])).isSome = true ∨
                ∃ i, ∃ hi : i < j,
                  eligibleWf key (rest.get ⟨i, Nat.lt_trans hi hjr⟩) = true ∧
                  key (rest.get ⟨i, Nat.lt_trans hi hjr⟩) =
                    key (rest.get ⟨j, hjr⟩) := by
              refine ⟨j2, hj2, ?_⟩
              rw [hgetj] at hcase
              rcases hcase with hfound | ⟨i, hi, hel, hsame⟩
              · left
                rw [assocFind_isSome_iff] at hfound ⊢
                obtain ⟨q, hq, hqk⟩ := hfound
                exact ⟨q, List.mem_append.mpr (Or.inl hq), hqk⟩
              · cases i with
                | zero =>
                  left
                  rw [show key ((w :: rest).get ⟨0, Nat.lt_trans hi hj⟩) =
                    key w from rfl] at hsame
                  rw [assocFind_isSome_iff]
                  exact ⟨(key w, w.system_id),
                    List.mem_append.mpr (Or.inr (by simp)), hsame⟩
                | succ i2 =>
                  exact Or.inr ⟨i2, by omega, hel, hsame⟩
            have hinv2 : ∀ q ∈ ids ++ [(key w, w.system_id)],
                ∃ b, b ∈ allWs ∧ key b = q.1 ∧ q.1.truthy = true ∧
                  b.system_id = q.2 := by
              intro q hq
              rcases List.mem_append.mp hq with hq1 | hq2
              · exact hinv q hq1
              · have hqq : q = (key w, w.system_id) := by simpa using hq2
                subst hqq
                exact ⟨w, hsub w (List.mem_cons_self w rest), rfl,
                  (by simp only [Bool.and_eq_true] at helig
                      exact helig.1), rfl⟩
            obtain ⟨a, ha, b, hb, hk, ht, herr⟩ := ih
              (cache ++ [("primary_key_" ++ toString w.pk,
                ⟨w.system_id ++ " (using " ++ (key w).render ++ ")", w, []⟩)])
              (ids ++ [(key w, w.system_id)])
              (pats ++ [("primary_key_" ++ toString w.pk, idRegex s.data)])
              hsub2 hinv2 hint2 htrig2
            refine ⟨a, ha, b, hb, hk, ht, ?_⟩
            simp only [buildCache, hfind]
            rw [if_pos helig]
            rw [hkw] at herr ⊢
            exact herr
          · -- integer identifier: excluded by hypothesis
            have hw := hint w (List.mem_cons_self w rest)
            rw [hkw] at hw
            simp [Ident.isInt] at hw
        · -- head not eligible: accumulators unchanged
          have htrig2 : ∃ j, ∃ hjr : j < rest.length,
              (assocFind (key (rest.get ⟨j, hjr⟩)) ids).isSome = true ∨
              ∃ i, ∃ hi : i < j,
                eligibleWf key (rest.get ⟨i, Nat.lt_trans hi hjr⟩) = true ∧
                key (rest.get ⟨i, Nat.lt_trans hi hjr⟩) =
                  key (rest.get ⟨j, hjr⟩) := by
            refine ⟨j2, hj2, ?_⟩
            rw [hgetj] at hcase
            rcases hcase with hfound | ⟨i, hi, hel, hsame⟩
            · exact Or.inl hfound
            · cases i with
              | zero => exact absurd hel helig
              | succ i2 => exact Or.inr ⟨i2, by omega, hel, hsame⟩
          obtain ⟨a, ha, b, hb, hk, ht, herr⟩ := ih
            (cache ++ [("primary_key_" ++ toString w.pk,
              ⟨w.system_id ++ " (Skipped, identifier is NULL)", w, []⟩)])
            ids pats hsub2 hinv hint2 htrig2
          refine ⟨a, ha, b, hb, hk, ht, ?_⟩
          simp only [buildCache, hfind]
          rw [if_neg helig]
          exact herr
    · -- duplicate found on the head workflow itself
      have hmem := assocFind_eq_some (key w) ids other hfind
      obtain ⟨b, hbAll, hkb, htr, hsys⟩ := hinv (key w, other) hmem
      refine ⟨w, hsub w (List.mem_cons_self w rest), b, hbAll, hkb.symm,
        htr, ?_⟩
      simp only [buildCache, hfind]
      rw [hsys]

/-- C1 (amended): if the key function gives two workflows the same identifier,
the earlier-enumerated of the two being eligible for matching (truthy
identifier and no pre-existing sequencing data), and no enumerated workflow
has an integer identifier (which would instead crash pattern interpolation
with a `TypeError` inside `re.sub`), then `import_data` fails with the
duplicate-identifier `click.UsageError` naming two entities sharing a truthy
identifier, and it does so before any filesystem access: the result is the
same for every supplied directory tree and the mutation trace is empty. -/
theorem c1_dup_identifier_error (key : Workflow → Ident)
    (wfs : List Workflow) (i j : Nat) (hij : i < j) (hj : j < wfs.length)
    (hint : ∀ w ∈ wfs, (key w).isInt = false)
    (helig : eligibleWf key (wfs.get ⟨i, Nat.lt_trans hij hj⟩) = true)
    (hsame : key (wfs.get ⟨i, Nat.lt_trans hij hj⟩) =
      key (wfs.get ⟨j, hj⟩)) :
    ∃ a, a ∈ wfs ∧ ∃ b, b ∈ wfs ∧ key a = key b ∧ (key a).truthy = true ∧
      ∀ (walks : List (List (String × List String))) (symlink commit : Bool)
        (files_data : List (String × FileData)) (base : String)
        (alloc : Nat → String) (getsize treeSize : String → Nat)
        (relocFails : String → String → Bool),
        import_data wfs walks symlink commit key files_data base alloc
          getsize treeSize relocFails =
          (.error (.usage (dupMsg a.system_id b.system_id (key a).render)),
            []) := by
  obtain ⟨a, ha, b, hb, hk, ht, herr⟩ :=
    buildCache_dup key wfs wfs [] [] [] (fun w hw => hw)
      (by intro q hq; simp at hq) hint
      ⟨j, hj, Or.inr ⟨i, hij, helig, hsame⟩⟩
  refine ⟨a, ha, b, hb, hk, ht, ?_⟩
  intro walks symlink commit files_data base alloc getsize treeSize relocFails
  unfold import_data
  rw [herr]

/-- A second data-free workflow used by the C1 witness. -/
def c1wfC : Workflow := ⟨3, "W3", [], none⟩

/-- C1 witness: two eligible workflows both keyed to the identifier `dup`. -/
theorem c1_dup_identifier_error_witness :
    ∃ a, a ∈ [c1wfB, c1wfC] ∧ ∃ b, b ∈ [c1wfB, c1wfC] ∧
      c1key a = c1key b ∧ (c1key a).truthy = true ∧
      ∀ (walks : List (List (String × List String))) (symlink commit : Bool)
        (files_data : List (String × FileData)) (base : String)
        (alloc : Nat → String) (getsize treeSize : String → Nat)
        (relocFails : String → String → Bool),
        import_data [c1wfB, c1wfC] walks symlink commit c1key files_data base
          alloc getsize treeSize relocFails =
          (.error (.usage (dupMsg a.system_id b.system_id
            (c1key a).render)), []) :=
  c1_dup_identifier_error c1key [c1wfB, c1wfC] 0 1 (by decide) (by decide)
    (by decide) (by decide) (by decide)

end Isabl
